import Mathlib

/-!
# whatsmeow-groq: the message relay of `main.go`

A shallow embedding of `main.go`: the text reformatter `htmlToWhatsAppFormat`,
the completion client `sendPostRequestGroq` and the event handler returned by
`GetEventHandler`, followed by theorems about them.

Go strings are byte sequences.  Texts are modelled here as Lean strings
(sequences of code points).  Every pattern searched for or replaced by the
program is ASCII, and in UTF-8 an ASCII byte never occurs inside the encoding
of another code point, so searching and replacing by code point agrees with
searching and replacing by byte on every well-formed text.
-/

/-! ## Go's `strings` package (the two functions the program calls) -/

namespace strings

/-- Go `strings.Contains` on character lists: `substr` occurs somewhere in `s`
(`Index(s, substr) >= 0`); the empty pattern occurs in every text. -/
def containsList : List Char → List Char → Bool
  | [], substr => substr.isEmpty
  | c :: cs, substr => substr.isPrefixOf (c :: cs) || containsList cs substr

/-- Left-to-right scan of Go `strings.Replace(s, old, new, -1)` for a non-empty
`old`.  The counter is the number of characters of the current match that are
still to be skipped; at counter `0` the scan looks for `old` at the current
position, writes `new` and skips the match when it is there, and copies one
character otherwise.  Matches therefore do not overlap and the leftmost one
wins, and the text written is never scanned again. -/
def replaceScan (old new : List Char) : Nat → List Char → List Char
  | _, [] => []
  | k + 1, _ :: cs => replaceScan old new k cs
  | 0, c :: cs =>
    if old.isPrefixOf (c :: cs) then new ++ replaceScan old new (old.length - 1) cs
    else c :: replaceScan old new 0 cs

/-- Go `strings.ReplaceAll` on character lists.  For the empty `old` Go matches
at the start of the text and after every code point. -/
def replaceAllList (s old new : List Char) : List Char :=
  if old.isEmpty then new ++ s.flatMap (fun c => c :: new)
  else replaceScan old new 0 s

/-- Go `strings.Contains(s, substr)`. -/
def Contains (s substr : String) : Bool :=
  containsList s.data substr.data

/-- Go `strings.ReplaceAll(s, old, new)`: a copy of `s` with all non-overlapping
instances of `old` replaced by `new`. -/
def ReplaceAll (s old new : String) : String :=
  ⟨replaceAllList s.data old.data new.data⟩

end strings

/-! ## The text reformatter -/

/-- The function `htmlToWhatsAppFormat` of `main.go`: eight literal
replacements, applied one after the other in the order of the source. -/
def htmlToWhatsAppFormat (html : String) : String :=
  let html := strings.ReplaceAll html "</p>\n" "\n"
  let html := strings.ReplaceAll html "</p>" "\n"
  let html := strings.ReplaceAll html "<p>" ""
  let html := strings.ReplaceAll html "<ol>" "- "
  let html := strings.ReplaceAll html "</ol>" "\n"
  let html := strings.ReplaceAll html "<li>" "- "
  let html := strings.ReplaceAll html "</li>" "\n"
  let html := strings.ReplaceAll html "<br>" "\n"
  html

/-- The replacements of `htmlToWhatsAppFormat`, pattern and replacement, in the
order of the source. -/
def replacements : List (String × String) :=
  [("</p>\n", "\n"), ("</p>", "\n"), ("<p>", ""), ("<ol>", "- "), ("</ol>", "\n"),
   ("<li>", "- "), ("</li>", "\n"), ("<br>", "\n")]

/-- The markup fragments the reformatter recognizes: paragraph, ordered list and
list item tags and the line break.  The first pattern of `replacements` is the
fragment `</p>` followed by a newline. -/
def recognizedFragments : List String :=
  ["<p>", "</p>", "<ol>", "</ol>", "<li>", "</li>", "<br>"]

/-- Applying a list of replacements from left to right. -/
def applyReplacements (steps : List (String × String)) (s : String) : String :=
  steps.foldl (fun acc step => strings.ReplaceAll acc step.1 step.2) s

/-! ## Data model -/

/-- A Go `error` value, represented by its message. -/
abbrev Error := String

/-- The struct `Message` of `main.go`: one entry of the request's messages. -/
structure Message where
  Role : String
  Content : String
deriving DecidableEq

/-- The struct `RequestPayload` of `main.go`. -/
structure RequestPayload where
  Messages : List Message
  Model : String
deriving DecidableEq

/-- The inner anonymous struct `Message` of a choice of `ApiResponseGroq`. -/
structure ChoiceMessage where
  Content : String
deriving DecidableEq

/-- The anonymous struct of one element of `ApiResponseGroq.Choices`. -/
structure Choice where
  Message : ChoiceMessage
deriving DecidableEq

/-- The struct `ApiResponseGroq` of `main.go`. -/
structure ApiResponseGroq where
  Choices : List Choice
deriving DecidableEq

namespace http

/-- The part of Go's `http.Request` the program sets: method, URL, body and
header fields. -/
structure Request where
  Method : String
  URL : String
  Body : String
  Header : List (String × String)
deriving DecidableEq

/-- Go `req.Header.Set(key, value)`: the entry of `key` is replaced. -/
def Request.HeaderSet (req : Request) (key value : String) : Request :=
  { req with Header := (key, value) :: req.Header.filter (fun kv => kv.1 != key) }

/-- The part of Go's `http.Response` the program reads: `Body` is what
`io.ReadAll(resp.Body)` yields, the bytes read or a read error. -/
structure Response where
  StatusCode : Nat
  Body : Except Error String

end http

namespace types

/-- The WhatsApp identifier `types.JID` of a user or chat. -/
structure JID where
  User : String
  Server : String
deriving DecidableEq

/-- The fields of `types.MessageInfo` the handler reads. -/
structure MessageInfo where
  Chat : JID
  Sender : JID
deriving DecidableEq

end types

namespace waProto

/-- The protobuf message `waProto.Message`; only the optional `Conversation`
field (the plain text) is read or written by the program. -/
structure Message where
  Conversation : Option String
deriving DecidableEq

/-- The generated getter `GetConversation`: the text when the message and the
field are both present, the empty string otherwise. -/
def GetConversation : Option Message → String
  | some ⟨some text⟩ => text
  | _ => ""

end waProto

namespace events

/-- The event `events.Message`: `Message` is a pointer in Go and may be nil. -/
structure Message where
  Info : types.MessageInfo
  Message : Option waProto.Message
deriving DecidableEq

end events

/-- An event delivered to the handler (`evt interface{}`): a `*events.Message`
or a value of any other dynamic type, named by `kind`. -/
inductive Event where
  | Message (v : events.Message)
  | Other (kind : String)
deriving DecidableEq

/-- The handle `*whatsmeow.Client` the handler closes over. -/
structure Client where
  id : Nat
deriving DecidableEq

/-- One call made by the program that is visible from outside, in the order made. -/
inductive Call where
  /-- The call `fmt.Println(args...)`. -/
  | Println (args : List String)
  /-- The call `sendPostRequestGroq(prompt)` made by the handler. -/
  | sendPostRequestGroq (prompt : String)
  /-- The network call `client.Do(req)`. -/
  | Do (req : http.Request)
  /-- The deferred `resp.Body.Close()`. -/
  | BodyClose
  /-- The call `client.SendMessage(ctx, chat, &waProto.Message{...})`. -/
  | SendMessage (client : Client) (chat : types.JID) (message : waProto.Message)
deriving DecidableEq

/-- What the library and the outside world answer to the calls of the program:
`encoding/json`, `http.NewRequest`, the process environment and the network. -/
structure World where
  /-- The answer of `json.Marshal(payload)`. -/
  Marshal : RequestPayload → Except Error String
  /-- The answer of `http.NewRequest(method, url, body)`. -/
  NewRequest : String → String → String → Except Error http.Request
  /-- The answer of `os.Getenv(name)`: the empty string when the variable is unset. -/
  Getenv : String → String
  /-- The answer of `client.Do(req)`. -/
  Do : http.Request → Except Error http.Response
  /-- The answer of `json.Unmarshal(body, &apiResp)`. -/
  Unmarshal : String → Except Error ApiResponseGroq

/-- The two results `(string, error)` of `sendPostRequestGroq`, with the calls
it made. -/
structure Returned where
  calls : List Call
  value : String
  err : Option Error
deriving DecidableEq

/-! ## The completion client -/

/-- The function `sendPostRequestGroq` of `main.go`. -/
def sendPostRequestGroq (w : World) (prompt : String) : Returned :=
  let payload : RequestPayload :=
    { Messages := [{ Role := "user", Content := prompt }], Model := "mixtral-8x7b-32768" }
  match w.Marshal payload with
  | .error err => ⟨[], "", some ("error marshaling JSON: " ++ err)⟩
  | .ok jsonBody =>
    match w.NewRequest "POST" "https://api.groq.com/openai/v1/chat/completions" jsonBody with
    | .error err => ⟨[], "", some ("error creating request: " ++ err)⟩
    | .ok req =>
      let apiKey := w.Getenv "GROQ_API_KEY"
      if apiKey = "" then
        ⟨[], "", some "GROQ_API_KEY environment variable not set"⟩
      else
        let req := req.HeaderSet "Authorization" ("Bearer " ++ apiKey)
        let req := req.HeaderSet "Content-Type" "application/json"
        match w.Do req with
        | .error err => ⟨[.Do req], "", some ("error sending request: " ++ err)⟩
        | .ok resp =>
          match resp.Body with
          | .error err =>
            ⟨[.Do req, .BodyClose], "", some ("error reading response body: " ++ err)⟩
          | .ok responseBody =>
            match w.Unmarshal responseBody with
            | .error err =>
              ⟨[.Do req, .BodyClose], "", some ("error unmarshaling response JSON: " ++ err)⟩
            | .ok apiResp =>
              match apiResp.Choices with
              | first :: _ => ⟨[.Do req, .BodyClose], first.Message.Content, none⟩
              | [] => ⟨[.Do req, .BodyClose], "", some "no choices found in the response"⟩

/-! ## The message router -/

/-- The handler returned by `GetEventHandler(client)` in `main.go`, as the list
of calls it makes for one event. -/
def GetEventHandler (client : Client) (w : World) (evt : Event) : List Call :=
  match evt with
  | .Message v =>
    let messageBody := waProto.GetConversation v.Message
    if messageBody == "0>" || strings.Contains messageBody "0>" then
      let chatMsg := strings.ReplaceAll messageBody "0> " ""
      let userDetail := v.Info.Sender.User
      let message := chatMsg
      let r := sendPostRequestGroq w message
      [.Println ["The user name is:", userDetail], .sendPostRequestGroq message]
        ++ r.calls
        ++ (match r.err with
            | some err => [.Println ["Failed to send post request:", err]]
            | none => [])
        ++ [.SendMessage client v.Info.Chat { Conversation := some r.value }]
    else []
  | .Other _ => []

/-! ## Reading a list of calls -/

/-- The prompts of the completion calls in a list of calls. -/
def completionCalls (calls : List Call) : List String :=
  calls.filterMap fun
    | .sendPostRequestGroq prompt => some prompt
    | _ => none

/-- The requests of the network calls in a list of calls. -/
def networkCalls (calls : List Call) : List http.Request :=
  calls.filterMap fun
    | .Do req => some req
    | _ => none

/-- The send calls in a list of calls: client, addressee and text body. -/
def sendCalls (calls : List Call) : List (Client × types.JID × String) :=
  calls.filterMap fun
    | .SendMessage client chat message => some (client, chat, waProto.GetConversation (some message))
    | _ => none

/-! ## Concrete worlds and events -/

/-- A world in which the key is set and every completion request is answered
with the single choice `text`. -/
def worldAnswering (text : String) : World where
  Marshal := fun payload => .ok (String.join (payload.Messages.map (·.Content)))
  NewRequest := fun method url body => .ok ⟨method, url, body, []⟩
  Getenv := fun name => if name = "GROQ_API_KEY" then "gsk_test" else ""
  Do := fun _ => .ok ⟨200, .ok "(one choice)"⟩
  Unmarshal := fun _ => .ok ⟨[⟨⟨text⟩⟩]⟩

/-- The world of `worldAnswering` with `GROQ_API_KEY` unset. -/
def worldNoKey : World :=
  { worldAnswering "unused" with Getenv := fun _ => "" }

/-- The decoding of the two response bodies of the examples: one choice with the
content `4`, and no choice. -/
def decodeExample (body : String) : Except Error ApiResponseGroq :=
  if body = "\x7b\"choices\":[\x7b\"message\":\x7b\"content\":\"4\"\x7d\x7d]\x7d" then
    .ok ⟨[⟨⟨"4"⟩⟩]⟩
  else if body = "\x7b\"choices\":[]\x7d" then .ok ⟨[]⟩
  else .error "unexpected body"

/-- A world in which the key is set and the server replies with `body`. -/
def worldReplying (body : String) : World :=
  { worldAnswering "unused" with
    Do := fun _ => .ok ⟨200, .ok body⟩
    Unmarshal := decodeExample }

/-- A chat. -/
def chatA : types.JID := ⟨"15550001", "s.whatsapp.net"⟩

/-- A sender. -/
def senderB : types.JID := ⟨"15550002", "s.whatsapp.net"⟩

/-- A plain-text message with the text `text`, sent by `senderB` in `chatA`. -/
def textMessage (text : String) : events.Message :=
  ⟨⟨chatA, senderB⟩, some ⟨some text⟩⟩

/-- The event of `textMessage`. -/
def textEvent (text : String) : Event :=
  .Message (textMessage text)

/-! ## Facts about `strings.Contains` and `strings.ReplaceAll` -/

namespace strings

theorem containsList_iff_isInfix (s substr : List Char) :
    containsList s substr = true ↔ substr <:+: s := by
  induction s with
  | nil => simp [containsList]
  | cons c cs ih =>
    simp only [containsList, Bool.or_eq_true, ih, List.isPrefixOf_iff_prefix]
    exact List.infix_cons_iff.symm

theorem containsList_nil (s : List Char) : containsList s [] = true := by
  cases s <;> simp [containsList]

/-- A text that does not contain `a` does not contain `a ++ b` either. -/
theorem containsList_append_false (s a b : List Char) (h : containsList s a = false) :
    containsList s (a ++ b) = false := by
  rw [Bool.eq_false_iff] at h ⊢
  intro hab
  apply h
  rw [containsList_iff_isInfix] at hab ⊢
  exact List.IsInfix.trans (List.infix_append' [] a b) hab

/-- Where `old` does not occur the scan copies the text. -/
theorem replaceScan_of_not_contains (old new : List Char) :
    ∀ s : List Char, containsList s old = false → replaceScan old new 0 s = s
  | [], _ => rfl
  | c :: cs, h => by
    simp only [containsList, Bool.or_eq_false_iff] at h
    simp [replaceScan, h.1, replaceScan_of_not_contains old new cs h.2]

/-- Skipping the rest of a match: a counter equal to the length of `a` drops `a`. -/
theorem replaceScan_skip (old new : List Char) (t : List Char) :
    ∀ (a : List Char) (k : Nat), a.length = k →
      replaceScan old new k (a ++ t) = replaceScan old new 0 t
  | [], k, h => by
    simp only [List.length_nil] at h
    subst h
    rfl
  | x :: a, k, h => by
    cases k with
    | zero => simp at h
    | succ k =>
      simp only [List.length_cons, Nat.add_right_cancel_iff] at h
      simp only [List.cons_append, replaceScan]
      exact replaceScan_skip old new t a k h

/-- A counter `k` drops the next `k` characters of the text. -/
theorem replaceScan_drop (old new : List Char) :
    ∀ (s : List Char) (k : Nat), replaceScan old new k s = replaceScan old new 0 (s.drop k)
  | [], k => by cases k <;> rfl
  | _ :: _, 0 => rfl
  | _ :: cs, k + 1 => by
    simp only [replaceScan, List.drop_succ_cons]
    exact replaceScan_drop old new cs k

/-- The scan of a non-empty text, step by step: where `old` starts the text, it
is replaced by `new` and the scan goes on behind the match; elsewhere one
character is copied. -/
theorem replaceScan_cons (x : Char) (old new : List Char) (c : Char) (cs : List Char) :
    replaceScan (x :: old) new 0 (c :: cs)
      = if (x :: old).isPrefixOf (c :: cs)
        then new ++ replaceScan (x :: old) new 0 ((c :: cs).drop (x :: old).length)
        else c :: replaceScan (x :: old) new 0 cs := by
  simp only [replaceScan, List.length_cons, Nat.add_sub_cancel, List.drop_succ_cons]
  rw [replaceScan_drop (x :: old) new cs old.length]

/-- A text that starts with `old`: the match is replaced and the scan goes on
behind it. -/
theorem replaceScan_append (x : Char) (old new t : List Char) :
    replaceScan (x :: old) new 0 ((x :: old) ++ t)
      = new ++ replaceScan (x :: old) new 0 t := by
  have hp : (x :: old).isPrefixOf (x :: (old ++ t)) = true := by
    rw [List.isPrefixOf_iff_prefix]
    exact List.prefix_append (x :: old) t
  show replaceScan (x :: old) new 0 (x :: (old ++ t)) = _
  simp only [replaceScan, hp, if_true, List.length_cons, Nat.add_sub_cancel]
  rw [replaceScan_skip (x :: old) new t old old.length rfl]

/-- The scan never writes more than it reads when `new` is no longer than `old`. -/
theorem replaceScan_length (old new : List Char) (hlen : new.length ≤ old.length) :
    ∀ (s : List Char) (k : Nat), k ≤ s.length →
      (replaceScan old new k s).length + k ≤ s.length
  | [], k, h => by
    simp only [List.length_nil, Nat.le_zero_eq] at h
    subst h
    simp [replaceScan]
  | c :: cs, k + 1, h => by
    simp only [List.length_cons] at h
    have ih := replaceScan_length old new hlen cs k (by omega)
    simp only [replaceScan, List.length_cons]
    omega
  | c :: cs, 0, _ => by
    simp only [replaceScan]
    split
    · rename_i hp
      rw [List.isPrefixOf_iff_prefix] at hp
      have hl := hp.length_le
      simp only [List.length_cons] at hl
      have ih := replaceScan_length old new hlen cs (old.length - 1) (by omega)
      simp only [List.length_append, List.length_cons]
      omega
    · have ih := replaceScan_length old new hlen cs 0 (Nat.zero_le _)
      simp only [List.length_cons]
      omega

/-- Where `old` occurs and `new` is shorter than `old`, the scan shortens the text. -/
theorem replaceScan_length_lt (old new : List Char) (hlen : new.length < old.length) :
    ∀ s : List Char, containsList s old = true →
      (replaceScan old new 0 s).length < s.length
  | [], h => by
    simp only [containsList, List.isEmpty_eq_true] at h
    subst h
    simp at hlen
  | c :: cs, h => by
    simp only [replaceScan]
    split
    · rename_i hp
      rw [List.isPrefixOf_iff_prefix] at hp
      have hl := hp.length_le
      simp only [List.length_cons] at hl
      have ih := replaceScan_length old new (Nat.le_of_lt hlen) cs (old.length - 1) (by omega)
      simp only [List.length_append, List.length_cons]
      omega
    · rename_i hp
      simp only [containsList, Bool.or_eq_true] at h
      have hc : containsList cs old = true := by
        rcases h with h | h
        · exact absurd h hp
        · exact h
      have ih := replaceScan_length_lt old new hlen cs hc
      simp only [List.length_cons]
      omega

theorem Contains_append_false (s a b : String) (h : Contains s a = false) :
    Contains s (a ++ b) = false := by
  simp only [Contains, String.data_append] at h ⊢
  exact containsList_append_false _ _ _ h

/-- The text is returned unchanged by `ReplaceAll` when `old` does not occur in it. -/
theorem ReplaceAll_of_not_Contains (s old new : String) (h : Contains s old = false) :
    ReplaceAll s old new = s := by
  simp only [Contains] at h
  have hne : old.data.isEmpty = false := by
    cases hd : old.data with
    | nil => rw [hd, containsList_nil] at h; exact absurd h (by decide)
    | cons x xs => rfl
  simp only [ReplaceAll, replaceAllList, hne]
  rw [if_neg (by simp), replaceScan_of_not_contains _ _ _ h]

/-- The text never gets longer under `ReplaceAll` when `new` is shorter than `old`. -/
theorem ReplaceAll_length_le (s old new : String) (hlen : new.length < old.length) :
    (ReplaceAll s old new).length ≤ s.length := by
  have hl : new.data.length < old.data.length := hlen
  have hne : old.data.isEmpty = false := by
    cases hd : old.data with
    | nil => rw [hd] at hl; simp at hl
    | cons x xs => rfl
  have h := replaceScan_length old.data new.data (Nat.le_of_lt hl) s.data 0 (Nat.zero_le _)
  simp only [ReplaceAll, replaceAllList, hne, String.length]
  rw [if_neg (by simp)]
  omega

/-- When it keeps the length of the text, `ReplaceAll` found no `old` in it
(`new` shorter than `old`). -/
theorem not_Contains_of_ReplaceAll_length (s old new : String)
    (hlen : new.length < old.length)
    (h : (ReplaceAll s old new).length = s.length) : Contains s old = false := by
  have hl : new.data.length < old.data.length := hlen
  have hne : old.data.isEmpty = false := by
    cases hd : old.data with
    | nil => rw [hd] at hl; simp at hl
    | cons x xs => rfl
  rw [Bool.eq_false_iff]
  intro hc
  have hlt := replaceScan_length_lt old.data new.data hl s.data hc
  simp only [ReplaceAll, replaceAllList, hne, String.length] at h
  rw [if_neg (by simp)] at h
  omega

end strings

/-! ## The text reformatter: fixed points -/

theorem htmlToWhatsAppFormat_eq_applyReplacements (s : String) :
    htmlToWhatsAppFormat s = applyReplacements replacements s := rfl

theorem applyReplacements_of_not_Contains (steps : List (String × String)) (s : String)
    (h : ∀ step ∈ steps, strings.Contains s step.1 = false) :
    applyReplacements steps s = s := by
  induction steps with
  | nil => rfl
  | cons step rest ih =>
    have h1 := h step (List.mem_cons_self _ _)
    simp only [applyReplacements, List.foldl_cons,
      strings.ReplaceAll_of_not_Contains s step.1 step.2 h1]
    exact ih (fun st hst => h st (List.mem_cons_of_mem _ hst))

theorem applyReplacements_length_le (steps : List (String × String))
    (hlen : ∀ step ∈ steps, step.2.length < step.1.length) (s : String) :
    (applyReplacements steps s).length ≤ s.length := by
  induction steps generalizing s with
  | nil => exact Nat.le_refl _
  | cons step rest ih =>
    have h1 := strings.ReplaceAll_length_le s step.1 step.2 (hlen step (List.mem_cons_self _ _))
    have h2 := ih (fun st hst => hlen st (List.mem_cons_of_mem _ hst))
      (strings.ReplaceAll s step.1 step.2)
    simp only [applyReplacements, List.foldl_cons] at h2 ⊢
    omega

/-- A text that keeps its length under replacements that all shorten contains
none of the patterns. -/
theorem not_Contains_of_applyReplacements_length (steps : List (String × String))
    (hlen : ∀ step ∈ steps, step.2.length < step.1.length) (s : String)
    (h : (applyReplacements steps s).length = s.length) :
    ∀ step ∈ steps, strings.Contains s step.1 = false := by
  induction steps generalizing s with
  | nil => intro step hstep; cases hstep
  | cons step rest ih =>
    have hrest : ∀ st ∈ rest, st.2.length < st.1.length :=
      fun st hst => hlen st (List.mem_cons_of_mem _ hst)
    have hstep := hlen step (List.mem_cons_self _ _)
    have h1 := strings.ReplaceAll_length_le s step.1 step.2 hstep
    have h2 := applyReplacements_length_le rest hrest (strings.ReplaceAll s step.1 step.2)
    have h3 : applyReplacements (step :: rest) s
        = applyReplacements rest (strings.ReplaceAll s step.1 step.2) := rfl
    rw [h3] at h
    have hc : strings.Contains s step.1 = false :=
      strings.not_Contains_of_ReplaceAll_length s step.1 step.2 hstep (by omega)
    rw [strings.ReplaceAll_of_not_Contains s step.1 step.2 hc] at h
    intro st hst
    rcases List.mem_cons.mp hst with e | hmem
    · rw [e]; exact hc
    · exact ih hrest s h st hmem

theorem replacements_shorten : ∀ step ∈ replacements, step.2.length < step.1.length := by
  decide

/-- A text without a recognized fragment contains no pattern of `replacements`. -/
theorem not_Contains_replacements (s : String)
    (h : ∀ frag ∈ recognizedFragments, strings.Contains s frag = false) :
    ∀ step ∈ replacements, strings.Contains s step.1 = false := by
  have hp := h "</p>" (by decide)
  have hpn : strings.Contains s "</p>\n" = false :=
    strings.Contains_append_false s "</p>" "\n" hp
  intro step hstep
  simp only [replacements, List.mem_cons, List.mem_singleton, List.not_mem_nil,
    or_false] at hstep
  rcases hstep with e | e | e | e | e | e | e | e <;> subst e
  · exact hpn
  · exact hp
  · exact h _ (by decide)
  · exact h _ (by decide)
  · exact h _ (by decide)
  · exact h _ (by decide)
  · exact h _ (by decide)
  · exact h _ (by decide)

/-- A text with no pattern of `replacements` contains no recognized fragment. -/
theorem not_Contains_recognizedFragments (s : String)
    (h : ∀ step ∈ replacements, strings.Contains s step.1 = false) :
    ∀ frag ∈ recognizedFragments, strings.Contains s frag = false := by
  intro frag hfrag
  simp only [recognizedFragments, List.mem_cons, List.mem_singleton, List.not_mem_nil,
    or_false] at hfrag
  rcases hfrag with e | e | e | e | e | e | e <;> subst e
  · exact h ("<p>", "") (by decide)
  · exact h ("</p>", "\n") (by decide)
  · exact h ("<ol>", "- ") (by decide)
  · exact h ("</ol>", "\n") (by decide)
  · exact h ("<li>", "- ") (by decide)
  · exact h ("</li>", "\n") (by decide)
  · exact h ("<br>", "\n") (by decide)

/-- The reformatter returns a text unchanged exactly when the text contains no
recognized fragment. -/
theorem htmlToWhatsAppFormat_eq_self_iff (s : String) :
    htmlToWhatsAppFormat s = s
      ↔ ∀ frag ∈ recognizedFragments, strings.Contains s frag = false := by
  rw [htmlToWhatsAppFormat_eq_applyReplacements]
  constructor
  · intro h
    exact not_Contains_recognizedFragments s
      (not_Contains_of_applyReplacements_length replacements replacements_shorten s
        (congrArg String.length h))
  · intro h
    exact applyReplacements_of_not_Contains replacements s (not_Contains_replacements s h)

/-! ## The completion client and the router: helper facts -/

/-- The completion client makes no completion call and no send call of its own. -/
theorem sendPostRequestGroq_calls (w : World) (prompt : String) :
    completionCalls (sendPostRequestGroq w prompt).calls = []
      ∧ sendCalls (sendPostRequestGroq w prompt).calls = [] := by
  unfold sendPostRequestGroq
  simp only []
  repeat' split
  all_goals simp [completionCalls, sendCalls]

/-- Every failure of the completion client comes with the empty string. -/
theorem sendPostRequestGroq_value_of_err (w : World) (prompt : String)
    (h : (sendPostRequestGroq w prompt).err ≠ none) :
    (sendPostRequestGroq w prompt).value = "" := by
  unfold sendPostRequestGroq at h ⊢
  simp only [] at h ⊢
  repeat' split
  all_goals first
    | rfl
    | (exfalso; revert h; simp_all)

/-- The calls of the handler for a message event whose text contains the marker. -/
theorem GetEventHandler_triggered (client : Client) (w : World) (v : events.Message)
    (h : strings.Contains (waProto.GetConversation v.Message) "0>" = true) :
    GetEventHandler client w (.Message v)
      = [.Println ["The user name is:", v.Info.Sender.User],
          .sendPostRequestGroq (strings.ReplaceAll (waProto.GetConversation v.Message) "0> " "")]
        ++ (sendPostRequestGroq w
              (strings.ReplaceAll (waProto.GetConversation v.Message) "0> " "")).calls
        ++ (match (sendPostRequestGroq w
              (strings.ReplaceAll (waProto.GetConversation v.Message) "0> " "")).err with
            | some err => [.Println ["Failed to send post request:", err]]
            | none => [])
        ++ [.SendMessage client v.Info.Chat
              { Conversation := some (sendPostRequestGroq w
                  (strings.ReplaceAll (waProto.GetConversation v.Message) "0> " "")).value }] := by
  simp [GetEventHandler, h]

/-- The one completion call of a triggered handler carries the text with every
`"0> "` removed. -/
theorem completionCalls_triggered (client : Client) (w : World) (v : events.Message)
    (h : strings.Contains (waProto.GetConversation v.Message) "0>" = true) :
    completionCalls (GetEventHandler client w (.Message v))
      = [strings.ReplaceAll (waProto.GetConversation v.Message) "0> " ""] := by
  rw [GetEventHandler_triggered client w v h]
  have hc := (sendPostRequestGroq_calls w
    (strings.ReplaceAll (waProto.GetConversation v.Message) "0> " "")).1
  simp only [completionCalls] at hc ⊢
  simp only [List.filterMap_append, hc]
  cases (sendPostRequestGroq w
    (strings.ReplaceAll (waProto.GetConversation v.Message) "0> " "")).err <;> rfl

/-- The one send call of a triggered handler goes to the chat of the event and
carries the string returned by the completion client, as returned. -/
theorem sendCalls_triggered (client : Client) (w : World) (v : events.Message)
    (h : strings.Contains (waProto.GetConversation v.Message) "0>" = true) :
    sendCalls (GetEventHandler client w (.Message v))
      = [(client, v.Info.Chat, (sendPostRequestGroq w
          (strings.ReplaceAll (waProto.GetConversation v.Message) "0> " "")).value)] := by
  rw [GetEventHandler_triggered client w v h]
  have hc := (sendPostRequestGroq_calls w
    (strings.ReplaceAll (waProto.GetConversation v.Message) "0> " "")).2
  simp only [sendCalls] at hc ⊢
  simp only [List.filterMap_append, hc]
  cases (sendPostRequestGroq w
    (strings.ReplaceAll (waProto.GetConversation v.Message) "0> " "")).err <;> rfl

/-- For every failure of the completion call, a triggered handler still sends one
message, with the empty text. -/
theorem sendCalls_of_err (client : Client) (w : World) (v : events.Message)
    (h : strings.Contains (waProto.GetConversation v.Message) "0>" = true)
    (herr : (sendPostRequestGroq w
      (strings.ReplaceAll (waProto.GetConversation v.Message) "0> " "")).err ≠ none) :
    sendCalls (GetEventHandler client w (.Message v)) = [(client, v.Info.Chat, "")] := by
  rw [sendCalls_triggered client w v h, sendPostRequestGroq_value_of_err w _ herr]

/-- A text that starts with `"0> "` contains the marker `"0>"`. -/
theorem Contains_marker_append (t : String) : strings.Contains ("0> " ++ t) "0>" = true := by
  simp only [strings.Contains, String.data_append]
  rfl

/-- Removing `"0> "` from a text that starts with it removes it from the rest. -/
theorem ReplaceAll_marker_append (t : String) :
    strings.ReplaceAll ("0> " ++ t) "0> " "" = strings.ReplaceAll t "0> " "" := by
  have h := strings.replaceScan_append '0' ['>', ' '] [] t.data
  simp only [strings.ReplaceAll, strings.replaceAllList, String.data_append]
  exact congrArg String.mk h

/-! ## The claims -/

/-- Claim C1, which the code does not meet: the claim says that no message is
sent when the completion call fails.  With `GROQ_API_KEY` unset the completion
call for the message `0> hi` fails, and the handler still sends one message to
the chat, with the empty text. -/
theorem GetEventHandler_sends_after_failure :
    (sendPostRequestGroq worldNoKey "hi").err
        = some "GROQ_API_KEY environment variable not set"
      ∧ completionCalls (GetEventHandler ⟨0⟩ worldNoKey (textEvent "0> hi")) = ["hi"]
      ∧ sendCalls (GetEventHandler ⟨0⟩ worldNoKey (textEvent "0> hi")) = [(⟨0⟩, chatA, "")] := by
  decide

/-- Claim C2, which the code does not meet: the claim says that the body of the
reply is the reformatted completion text.  The completion call for the message
`0> hi` returns `<p>hi</p>` without error; `htmlToWhatsAppFormat` turns that
text into `hi` and a newline, but the handler never calls it and sends the one
reply to the chat with the body `<p>hi</p>`. -/
theorem GetEventHandler_reply_not_reformatted :
    (sendPostRequestGroq (worldAnswering "<p>hi</p>") "hi").value = "<p>hi</p>"
      ∧ (sendPostRequestGroq (worldAnswering "<p>hi</p>") "hi").err = none
      ∧ htmlToWhatsAppFormat "<p>hi</p>" = "hi\n"
      ∧ sendCalls (GetEventHandler ⟨0⟩ (worldAnswering "<p>hi</p>") (textEvent "0> hi"))
          = [(⟨0⟩, chatA, "<p>hi</p>")]
      ∧ sendCalls (GetEventHandler ⟨0⟩ (worldAnswering "<p>hi</p>") (textEvent "0> hi"))
          ≠ [(⟨0⟩, chatA, htmlToWhatsAppFormat "<p>hi</p>")] := by
  decide

/-- Claim C3: for every event whose conversation text does not contain `0>`, and
for every event that is not a message event, the handler makes no call at all:
no completion call, no network call, no send call. -/
theorem GetEventHandler_no_trigger (client : Client) (w : World) (evt : Event)
    (h : ∀ v : events.Message, evt = .Message v →
      strings.Contains (waProto.GetConversation v.Message) "0>" = false) :
    GetEventHandler client w evt = [] := by
  cases evt with
  | Other kind => rfl
  | Message v =>
    have h1 := h v rfl
    have h2 : (waProto.GetConversation v.Message == "0>") = false := by
      rw [beq_eq_false_iff_ne]
      intro e
      rw [e] at h1
      exact absurd h1 (by decide)
    simp [GetEventHandler, h1, h2]

/-- Claim C3 at the message `what is 2+2` and at an event that is no message. -/
theorem GetEventHandler_no_trigger_witness :
    GetEventHandler ⟨0⟩ (worldAnswering "4") (textEvent "what is 2+2") = []
      ∧ GetEventHandler ⟨0⟩ (worldAnswering "4") (.Other "events.Receipt") = [] :=
  ⟨GetEventHandler_no_trigger ⟨0⟩ (worldAnswering "4") (textEvent "what is 2+2")
      (fun v hv => by cases hv; decide),
   GetEventHandler_no_trigger ⟨0⟩ (worldAnswering "4") (.Other "events.Receipt")
      (fun v hv => by cases hv)⟩

/-- Claim C4: when the response was received and decoded, `sendPostRequestGroq`
returns the message content of the first choice and no error if there is a
choice, and the empty-response error with the empty string if there is none. -/
theorem sendPostRequestGroq_decoded (w : World) (prompt jsonBody : String)
    (req : http.Request) (resp : http.Response) (responseBody : String)
    (apiResp : ApiResponseGroq)
    (hm : w.Marshal { Messages := [{ Role := "user", Content := prompt }],
                      Model := "mixtral-8x7b-32768" } = .ok jsonBody)
    (hn : w.NewRequest "POST" "https://api.groq.com/openai/v1/chat/completions" jsonBody
            = .ok req)
    (hk : w.Getenv "GROQ_API_KEY" ≠ "")
    (hd : w.Do ((req.HeaderSet "Authorization" ("Bearer " ++ w.Getenv "GROQ_API_KEY")).HeaderSet
            "Content-Type" "application/json") = .ok resp)
    (hb : resp.Body = .ok responseBody)
    (hu : w.Unmarshal responseBody = .ok apiResp) :
    (∀ (first : Choice) (rest : List Choice), apiResp.Choices = first :: rest →
        (sendPostRequestGroq w prompt).value = first.Message.Content
          ∧ (sendPostRequestGroq w prompt).err = none)
      ∧ (apiResp.Choices = [] →
        (sendPostRequestGroq w prompt).value = ""
          ∧ (sendPostRequestGroq w prompt).err = some "no choices found in the response") := by
  constructor
  · intro first rest hc
    simp [sendPostRequestGroq, hm, hn, hk, hd, hb, hu, hc]
  · intro hc
    simp [sendPostRequestGroq, hm, hn, hk, hd, hb, hu, hc]

/-- Claim C4 at the two response bodies of the examples. -/
theorem sendPostRequestGroq_decoded_witness :
    ((sendPostRequestGroq
        (worldReplying "\x7b\"choices\":[\x7b\"message\":\x7b\"content\":\"4\"\x7d\x7d]\x7d")
        "what is 2+2").value = "4"
      ∧ (sendPostRequestGroq
        (worldReplying "\x7b\"choices\":[\x7b\"message\":\x7b\"content\":\"4\"\x7d\x7d]\x7d")
        "what is 2+2").err = none)
    ∧ ((sendPostRequestGroq (worldReplying "\x7b\"choices\":[]\x7d") "what is 2+2").value = ""
      ∧ (sendPostRequestGroq (worldReplying "\x7b\"choices\":[]\x7d") "what is 2+2").err
          = some "no choices found in the response") :=
  ⟨(sendPostRequestGroq_decoded
      (worldReplying "\x7b\"choices\":[\x7b\"message\":\x7b\"content\":\"4\"\x7d\x7d]\x7d")
      "what is 2+2" "what is 2+2"
      ⟨"POST", "https://api.groq.com/openai/v1/chat/completions", "what is 2+2", []⟩
      ⟨200, .ok "\x7b\"choices\":[\x7b\"message\":\x7b\"content\":\"4\"\x7d\x7d]\x7d"⟩
      "\x7b\"choices\":[\x7b\"message\":\x7b\"content\":\"4\"\x7d\x7d]\x7d"
      ⟨[⟨⟨"4"⟩⟩]⟩ rfl rfl (by decide) rfl rfl rfl).1
      ⟨⟨"4"⟩⟩ [] rfl,
   (sendPostRequestGroq_decoded (worldReplying "\x7b\"choices\":[]\x7d")
      "what is 2+2" "what is 2+2"
      ⟨"POST", "https://api.groq.com/openai/v1/chat/completions", "what is 2+2", []⟩
      ⟨200, .ok "\x7b\"choices\":[]\x7d"⟩ "\x7b\"choices\":[]\x7d"
      ⟨[]⟩ rfl rfl (by decide) rfl rfl rfl).2 rfl⟩

/-- Claim C5: for every prompt, when `GROQ_API_KEY` is unset or empty,
`sendPostRequestGroq` returns an error and makes no network call. -/
theorem sendPostRequestGroq_no_key (w : World) (prompt : String)
    (h : w.Getenv "GROQ_API_KEY" = "") :
    (sendPostRequestGroq w prompt).err ≠ none
      ∧ networkCalls (sendPostRequestGroq w prompt).calls = [] := by
  unfold sendPostRequestGroq
  simp only []
  split
  · simp [networkCalls]
  · split
    · simp [networkCalls]
    · simp [h, networkCalls]

/-- Claim C5 in the world without a key. -/
theorem sendPostRequestGroq_no_key_witness :
    worldNoKey.Getenv "GROQ_API_KEY" = ""
      ∧ (sendPostRequestGroq worldNoKey "what is 2+2").err ≠ none
      ∧ networkCalls (sendPostRequestGroq worldNoKey "what is 2+2").calls = [] :=
  ⟨rfl, sendPostRequestGroq_no_key worldNoKey "what is 2+2" rfl⟩

/-- Claim C6 as stated fails: for the message text `0>` the prompt passed to the
completion call is `0>`, not the empty string. -/
theorem GetEventHandler_prompt_for_bare_marker_not_empty :
    completionCalls (GetEventHandler ⟨0⟩ (worldAnswering "ok") (textEvent "0>")) = ["0>"]
      ∧ completionCalls (GetEventHandler ⟨0⟩ (worldAnswering "ok") (textEvent "0>")) ≠ [""] := by
  decide

/-- Claim C6, amended: for the message text that is exactly `0>` the router is
triggered and the prompt passed to the completion call is the text `0>` itself. -/
theorem GetEventHandler_bare_marker (client : Client) (w : World) (v : events.Message)
    (h : waProto.GetConversation v.Message = "0>") :
    completionCalls (GetEventHandler client w (.Message v)) = ["0>"] := by
  rw [completionCalls_triggered client w v (by rw [h]; decide), h]
  decide

/-- The amended claim C6 at the message `0>`. -/
theorem GetEventHandler_bare_marker_witness :
    waProto.GetConversation (textMessage "0>").Message = "0>"
      ∧ completionCalls (GetEventHandler ⟨0⟩ worldNoKey (.Message (textMessage "0>"))) = ["0>"] :=
  ⟨rfl, GetEventHandler_bare_marker ⟨0⟩ worldNoKey (textMessage "0>") rfl⟩

/-- Claim C7 as stated fails: for `t = "a 0> b"` the message `0> a 0> b` gives
the prompt `a b`, the later `"0> "` inside `t` is removed as well. -/
theorem GetEventHandler_strips_every_marker :
    completionCalls (GetEventHandler ⟨0⟩ (worldAnswering "ok") (textEvent ("0> " ++ "a 0> b")))
        = ["a b"]
      ∧ completionCalls (GetEventHandler ⟨0⟩ (worldAnswering "ok") (textEvent ("0> " ++ "a 0> b")))
        ≠ ["a 0> b"] := by
  decide

/-- Claim C7, amended: for every text `t`, a message whose text is `"0> "`
followed by `t` triggers the router, and the prompt is `t` with every occurrence
of `"0> "` removed; it is exactly `t` when `t` contains no `"0> "`. -/
theorem GetEventHandler_marker_space (client : Client) (w : World) (v : events.Message)
    (t : String) (h : waProto.GetConversation v.Message = "0> " ++ t) :
    completionCalls (GetEventHandler client w (.Message v))
        = [strings.ReplaceAll t "0> " ""]
      ∧ (strings.Contains t "0> " = false →
          completionCalls (GetEventHandler client w (.Message v)) = [t]) := by
  have hc : completionCalls (GetEventHandler client w (.Message v))
      = [strings.ReplaceAll t "0> " ""] := by
    rw [completionCalls_triggered client w v (by rw [h]; exact Contains_marker_append t), h,
      ReplaceAll_marker_append]
  refine ⟨hc, fun hn => ?_⟩
  rw [hc, strings.ReplaceAll_of_not_Contains t "0> " "" hn]

/-- The amended claim C7 at the message `0> what is 2+2`. -/
theorem GetEventHandler_marker_space_witness :
    completionCalls (GetEventHandler ⟨0⟩ worldNoKey (.Message (textMessage "0> what is 2+2")))
      = ["what is 2+2"] :=
  (GetEventHandler_marker_space ⟨0⟩ worldNoKey (textMessage "0> what is 2+2") "what is 2+2"
    (by decide)).2 (by decide)

/-- Claim C8: for every input that contains none of the recognized fragments
`<p>`, `</p>`, `<ol>`, `</ol>`, `<li>`, `</li>`, `<br>`, `htmlToWhatsAppFormat`
returns the input unchanged. -/
theorem htmlToWhatsAppFormat_plain (s : String)
    (h : ∀ frag ∈ ["<p>", "</p>", "<ol>", "</ol>", "<li>", "</li>", "<br>"],
      strings.Contains s frag = false) :
    htmlToWhatsAppFormat s = s :=
  (htmlToWhatsAppFormat_eq_self_iff s).mpr h

/-- Claim C8 at a text with angle brackets but no recognized fragment. -/
theorem htmlToWhatsAppFormat_plain_witness :
    htmlToWhatsAppFormat "2 < 3 and <b>4</b>\n- done" = "2 < 3 and <b>4</b>\n- done" :=
  htmlToWhatsAppFormat_plain "2 < 3 and <b>4</b>\n- done" (by decide)

/-- Claim C9 as stated fails: reformatting `<<p>p>` gives `<p>`, and reformatting
that again gives the empty text. -/
theorem htmlToWhatsAppFormat_not_idempotent :
    htmlToWhatsAppFormat "<<p>p>" = "<p>"
      ∧ htmlToWhatsAppFormat (htmlToWhatsAppFormat "<<p>p>") = ""
      ∧ htmlToWhatsAppFormat (htmlToWhatsAppFormat "<<p>p>") ≠ htmlToWhatsAppFormat "<<p>p>" := by
  decide

/-- Claim C9, amended: reformatting the reformatted text is a no-op exactly when
the reformatted text is plain, that is, contains none of the recognized
fragments `<p>`, `</p>`, `<ol>`, `</ol>`, `<li>`, `</li>`, `<br>`. -/
theorem htmlToWhatsAppFormat_idempotent_iff (s : String) :
    htmlToWhatsAppFormat (htmlToWhatsAppFormat s) = htmlToWhatsAppFormat s
      ↔ ∀ frag ∈ ["<p>", "</p>", "<ol>", "</ol>", "<li>", "</li>", "<br>"],
          strings.Contains (htmlToWhatsAppFormat s) frag = false :=
  htmlToWhatsAppFormat_eq_self_iff (htmlToWhatsAppFormat s)

/-- The amended claim C9 at the text with every fragment of the example. -/
theorem htmlToWhatsAppFormat_idempotent_iff_witness :
    htmlToWhatsAppFormat
        (htmlToWhatsAppFormat "<p>Hello</p><ol><li>One</li><li>Two</li></ol><br>")
      = htmlToWhatsAppFormat "<p>Hello</p><ol><li>One</li><li>Two</li></ol><br>" :=
  (htmlToWhatsAppFormat_idempotent_iff
    "<p>Hello</p><ol><li>One</li><li>Two</li></ol><br>").mpr (by decide)

/-- Claim C10: for every message text that contains the marker `0>` but not the
marker followed by a space, the router is triggered and the prompt passed to the
completion call is the message text unchanged. -/
theorem GetEventHandler_marker_without_space (client : Client) (w : World)
    (v : events.Message)
    (h : strings.Contains (waProto.GetConversation v.Message) "0>" = true)
    (hn : strings.Contains (waProto.GetConversation v.Message) "0> " = false) :
    completionCalls (GetEventHandler client w (.Message v))
      = [waProto.GetConversation v.Message] := by
  rw [completionCalls_triggered client w v h,
    strings.ReplaceAll_of_not_Contains _ "0> " "" hn]

/-- Claim C10 at the message `x0>y`. -/
theorem GetEventHandler_marker_without_space_witness :
    completionCalls (GetEventHandler ⟨0⟩ worldNoKey (.Message (textMessage "x0>y"))) = ["x0>y"] :=
  GetEventHandler_marker_without_space ⟨0⟩ worldNoKey (textMessage "x0>y")
    (by decide) (by decide)
